import Mathlib

set_option autoImplicit false

/-!
Verification of the `tryz` runtime composition library.

The development embeds the runtime parts of the repository in Lean:

* `Result` (packages/thunx/src/result.ts) — the two-variant outcome.
* `TypedError` (src/unnamed/part_016) — the tagged-error factory.
* `Token` (src/unnamed/part_011) — capability token identities keyed by name.
* `Provider` (src/unnamed/part_009) — the immutable factory map with
  `provide`, `get`, `pick` and `omit`.
* `Context` (the implementation found in packages/tryrun/src/program.test.ts,
  second document: the `context.ts` of the tryrun package) — the memoizing,
  cycle-detecting resolver.
* `Program` combinators `run`/`then`/`catch`/`retry`/`all` — the repository
  declares these (src/unnamed/part_004, part_013, packages/tryrun/src/shell.ts)
  but every body is a `throw new Error("... not implemented")` stub, so the
  runtime semantics of those combinators is modelled from the specification
  (spec.md §4.4, §5, §7, §8) and clearly marked as such below.

JavaScript `Map` objects are modelled as association lists with `Map`
semantics (`set` replaces in place, `get` returns the first match,
`delete` removes the entry).
-/

namespace Tryz

/-- Model of the JavaScript primitive values that flow through the library:
strings, numbers, booleans and `undefined`. -/
inductive JSValue where
  | str : String → JSValue
  | num : Int → JSValue
  | bool : Bool → JSValue
  | undef : JSValue
deriving DecidableEq, Repr

/-- JavaScript `Map.prototype.get` on an association list: the value stored
for `k`, if any. -/
def mapGet {α : Type} (m : List (String × α)) (k : String) : Option α :=
  match m with
  | [] => none
  | (k', v) :: rest => if k' = k then some v else mapGet rest k

/-- JavaScript `Map.prototype.set` on an association list: replaces the entry
for `k` in place when present (keeping its position), otherwise appends. -/
def mapSet {α : Type} (m : List (String × α)) (k : String) (v : α) :
    List (String × α) :=
  match m with
  | [] => [(k, v)]
  | (k', v') :: rest =>
    if k' = k then (k, v) :: rest else (k', v') :: mapSet rest k v

/-- JavaScript `Map.prototype.delete` on an association list: removes the
entry for `k`. -/
def mapDelete {α : Type} (m : List (String × α)) (k : String) :
    List (String × α) :=
  m.filter (fun kv => kv.1 ≠ k)

theorem mapGet_mapSet {α : Type} (m : List (String × α)) (k k' : String)
    (v : α) :
    mapGet (mapSet m k v) k' = if k' = k then some v else mapGet m k' := by
  induction m with
  | nil =>
    by_cases h : k' = k
    · simp [mapSet, mapGet, h]
    · simp [mapSet, mapGet, h, Ne.symm h]
  | cons hd tl ih =>
    obtain ⟨k₀, v₀⟩ := hd
    by_cases h₀ : k₀ = k
    · by_cases h₁ : k' = k
      · simp [mapSet, mapGet, h₀, h₁]
      · simp [mapSet, mapGet, h₀, h₁, Ne.symm h₁]
    · by_cases h₁ : k₀ = k'
      · have h₂ : ¬k' = k := fun h => h₀ (h₁.trans h)
        simp [mapSet, mapGet, h₀, h₁, h₂]
      · simp [mapSet, mapGet, h₀, h₁, ih]

theorem mapGet_mapDelete {α : Type} (m : List (String × α)) (k k' : String) :
    mapGet (mapDelete m k) k' = if k' = k then none else mapGet m k' := by
  induction m with
  | nil => simp [mapDelete, mapGet]
  | cons hd tl ih =>
    obtain ⟨k₀, v₀⟩ := hd
    by_cases h₀ : k₀ = k
    · by_cases h₁ : k' = k
      · simp [mapDelete, mapGet, List.filter_cons, h₀, h₁] at ih ⊢
        simp [ih]
      · simp [mapDelete, mapGet, List.filter_cons, h₀, h₁] at ih ⊢
        simp [ih, h₁, Ne.symm h₁]
    · by_cases h₁ : k₀ = k'
      · have h₂ : ¬k' = k := fun h => h₀ (h₁.trans h)
        simp [mapDelete, mapGet, List.filter_cons, h₀, h₁, h₂] at ih ⊢
      · simp [mapDelete, mapGet, List.filter_cons, h₀, h₁] at ih ⊢
        simp [ih]

/-- Model of a capability token (src/unnamed/part_011): a class identity whose
only runtime-relevant datum is its static `name`, used as the map key. -/
structure Token where
  name : String
deriving DecidableEq, Repr

/-- Deep embedding of the body of a function factory `(ctx) => shape`: the
body either returns an instance value, or calls `ctx.get(token)` and
continues with the resolved instance. -/
inductive FactoryBody where
  | ret : JSValue → FactoryBody
  | get : Token → (JSValue → FactoryBody) → FactoryBody

/-- Model of `TokenFactory` (src/unnamed/part_009): either a static instance
value or a function of the resolving context. -/
inductive TokenFactory where
  | value : JSValue → TokenFactory
  | fn : FactoryBody → TokenFactory

/-- Errors thrown by `Provider.get` and `Context.get`. These model thrown
JavaScript `Error`s (programmer errors), not tracked failures. `outOfFuel`
is an artefact of the fuel-indexed interpreter and never occurs for
sufficiently large fuel in the theorems below. -/
inductive ResolveError where
  | circular : String → ResolveError
  | notProvided : String → ResolveError
  | outOfFuel : ResolveError
deriving DecidableEq, Repr

/-- The message carried by each thrown error, as built by the source
(`Circular dependency detected: "${name}"` in context.ts,
`Token "${token.name}" not provided` in provider.ts part_009). -/
def ResolveError.message : ResolveError → String
  | .circular name => "Circular dependency detected: \"" ++ name ++ "\""
  | .notProvided name => "Token \"" ++ name ++ "\" not provided"
  | .outOfFuel => "out of fuel"

/-- Model of `Provider` (src/unnamed/part_009): an immutable map of factories
keyed by token name. -/
structure Provider where
  _factories : List (String × TokenFactory)

/-- Model of `Provider.prototype.provide`: copies the factory map, sets
`{token.name: factory}` and wraps the copy in a new `Provider`. -/
def Provider.provide (p : Provider) (token : Token) (factory : TokenFactory) :
    Provider :=
  { _factories := mapSet p._factories token.name factory }

/-- Model of `Provider.prototype.get`: returns the stored factory for
`token.name`, or throws `Token "<name>" not provided` when absent. -/
def Provider.get (p : Provider) (token : Token) :
    Except ResolveError TokenFactory :=
  match mapGet p._factories token.name with
  | some factory => .ok factory
  | none => .error (.notProvided token.name)

/-- Model of `Provider.prototype.pick`: builds a fresh map holding, for each
listed token in order, the entry found in `p` (tokens with no entry are
silently skipped). -/
def Provider.pick (p : Provider) (tokens : List Token) : Provider :=
  { _factories :=
      tokens.foldl
        (fun m token =>
          match mapGet p._factories token.name with
          | some factory => mapSet m token.name factory
          | none => m)
        [] }

/-- Model of `Provider.prototype.omit`: copies the map and deletes the entry
of each listed token. -/
def Provider.omit (p : Provider) (tokens : List Token) : Provider :=
  { _factories :=
      tokens.foldl (fun m token => mapDelete m token.name) p._factories }

/-- Model of the module-level `provider()` helper: an empty Provider. -/
def provider : Provider := { _factories := [] }

/-- C7: `provide` returns a Provider whose factory map is `p`'s map plus the
entry `{token.name: factory}`: lookups of the new name yield the new factory
(overwriting any earlier entry for that name, with no duplicate detection or
error), and lookups of every other name are unchanged. The original
Provider's map is untouched (the source copies the map with
`new Map(this._factories)` before setting). -/
theorem Provider.provide_characterization (p : Provider) (token : Token)
    (factory : TokenFactory) (k : String) :
    mapGet (p.provide token factory)._factories k =
      (if k = token.name then some factory else mapGet p._factories k) :=
  mapGet_mapSet p._factories token.name k factory

/-- C8: `get` returns the stored factory exactly when an entry for
`token.name` exists, and otherwise throws the programmer error whose message
is `Token "<name>" not provided`. -/
theorem Provider.get_characterization (p : Provider) (token : Token) :
    (∀ factory, mapGet p._factories token.name = some factory →
      p.get token = .ok factory) ∧
    (mapGet p._factories token.name = none →
      p.get token =
        .error (.notProvided token.name) ∧
      (ResolveError.notProvided token.name).message =
        "Token \"" ++ token.name ++ "\" not provided") := by
  constructor
  · intro factory h
    simp [Provider.get, h]
  · intro h
    simp [Provider.get, h, ResolveError.message]

/-- Witness for C8: a provider holding only `Foo` returns `Foo`'s stored
factory and throws `Token "Bar" not provided` for the absent token `Bar`. -/
theorem Provider.get_characterization_witness :
    (provider.provide { name := "Foo" }
        (.value (JSValue.str "FOO"))).get { name := "Foo" } =
      .ok (.value (JSValue.str "FOO")) ∧
    (provider.provide { name := "Foo" }
        (.value (JSValue.str "FOO"))).get { name := "Bar" } =
      .error (.notProvided "Bar") ∧
    (ResolveError.notProvided "Bar").message =
      "Token \"Bar\" not provided" := by
  refine ⟨?_, ?_⟩
  · exact
      (Provider.get_characterization
          (provider.provide { name := "Foo" } (.value (JSValue.str "FOO")))
          { name := "Foo" }).1
        (.value (JSValue.str "FOO"))
        (by simp [provider, Provider.provide, mapSet, mapGet])
  · exact
      (Provider.get_characterization
          (provider.provide { name := "Foo" } (.value (JSValue.str "FOO")))
          { name := "Bar" }).2
        (by simp [provider, Provider.provide, mapSet, mapGet])

/-- Helper for C9: lookup characterization of the fold used by `pick`. -/
theorem mapGet_pick_foldl (p : Provider) (tokens : List Token)
    (acc : List (String × TokenFactory)) (k : String) :
    mapGet
      (tokens.foldl
        (fun m token =>
          match mapGet p._factories token.name with
          | some factory => mapSet m token.name factory
          | none => m)
        acc) k =
      (if k ∈ tokens.map Token.name ∧ (mapGet p._factories k).isSome then
        mapGet p._factories k
      else mapGet acc k) := by
  induction tokens generalizing acc with
  | nil => simp
  | cons t ts ih =>
    rw [List.foldl_cons, ih]
    by_cases hk : k = t.name
    · subst hk
      cases hp : mapGet p._factories t.name with
      | none => simp
      | some f => simp [mapGet_mapSet]
    · cases hp : mapGet p._factories t.name with
      | none => simp [hk, Ne.symm hk]
      | some f => simp [mapGet_mapSet, hk, Ne.symm hk]

/-- Helper for C9: lookup characterization of the fold used by `omit`. -/
theorem mapGet_omit_foldl (tokens : List Token)
    (acc : List (String × TokenFactory)) (k : String) :
    mapGet (tokens.foldl (fun m token => mapDelete m token.name) acc) k =
      (if k ∈ tokens.map Token.name then none else mapGet acc k) := by
  induction tokens generalizing acc with
  | nil => simp
  | cons t ts ih =>
    rw [List.foldl_cons, ih]
    by_cases hk : k = t.name
    · subst hk
      simp [mapGet_mapDelete]
    · simp [hk, Ne.symm hk, mapGet_mapDelete]

/-- C9: `pick` returns a Provider containing exactly the entries of `p`
whose names appear in `tokens` (a listed name with no entry in `p` is
silently skipped, never an error), and `omit` returns a Provider whose map
equals `p`'s map with the listed names removed. Both build fresh maps, so
`p` itself is unmodified. -/
theorem Provider.pick_omit_characterization (p : Provider)
    (tokens : List Token) (k : String) :
    mapGet (p.pick tokens)._factories k =
      (if k ∈ tokens.map Token.name then mapGet p._factories k else none) ∧
    mapGet (p.omit tokens)._factories k =
      (if k ∈ tokens.map Token.name then none else mapGet p._factories k) := by
  constructor
  · show mapGet (tokens.foldl _ []) k = _
    rw [mapGet_pick_foldl]
    by_cases hm : k ∈ tokens.map Token.name
    · cases hp : mapGet p._factories k with
      | none => simp [hm, hp, mapGet]
      | some f => simp [hm, hp]
    · simp [hm, mapGet]
  · show mapGet (tokens.foldl _ p._factories) k = _
    rw [mapGet_omit_foldl]

/-- Model of an `AbortSignal`: only its `aborted` flag is observable here.
Object identity is modelled by value equality. -/
structure AbortSignal where
  aborted : Bool
deriving DecidableEq, Repr

/-- Model of `new AbortController().signal`: a freshly created signal, not
aborted. -/
def newAbortControllerSignal : AbortSignal := { aborted := false }

/-- Model of `Context` (the `context.ts` implementation of the tryrun
package, second document of packages/tryrun/src/program.test.ts): the
read-only `signal`, the provider, the private resolution cache and the
private in-progress set. -/
structure Context where
  signal : AbortSignal
  _provider : Provider
  _cache : List (String × JSValue)
  _resolving : List String

/-- Model of the `Context` constructor:
`this.signal = signal ?? new AbortController().signal`, with fresh empty
cache and in-progress set. -/
def Context.make (provider : Provider) (signal : Option AbortSignal) :
    Context :=
  { signal := signal.getD newAbortControllerSignal
    _provider := provider
    _cache := []
    _resolving := [] }

/-- Fuel-indexed interpreter for `Context.prototype.get` and for function
factory bodies. A `.inl token` request performs `ctx.get(token)` exactly as
the source does: return the cached instance when present; throw
`Circular dependency detected: "<name>"` when the name is in the in-progress
set; otherwise mark the name in progress, fetch the factory from the
provider (which throws `Token "<name>" not provided` when absent), invoke it
(a static value factory returns itself, a function factory runs with the
context), cache the instance and unmark the name. A `.inr body` request runs
a function factory body, each of whose `ctx.get` calls recurses. The fuel
only makes the function total; every theorem below exhibits results reached
within the stated fuel. -/
def Context.resolve (fuel : Nat) (ctx : Context) (q : Token ⊕ FactoryBody) :
    Except ResolveError (JSValue × Context) :=
  match fuel with
  | 0 => .error .outOfFuel
  | fuel + 1 =>
    match q with
    | .inl token =>
      match mapGet ctx._cache token.name with
      | some v => .ok (v, ctx)
      | none =>
        if token.name ∈ ctx._resolving then
          .error (.circular token.name)
        else
          let ctx1 : Context :=
            { ctx with _resolving := token.name :: ctx._resolving }
          match ctx._provider.get token with
          | .error e => .error e
          | .ok factory =>
            match
              (match factory with
               | .value v => Except.ok (v, ctx1)
               | .fn body => Context.resolve fuel ctx1 (.inr body)) with
            | .error e => .error e
            | .ok (v, ctx2) =>
              .ok (v,
                { ctx2 with
                  _cache := mapSet ctx2._cache token.name v
                  _resolving := ctx2._resolving.erase token.name })
    | .inr (.ret v) => .ok (v, ctx)
    | .inr (.get token k) =>
      match Context.resolve fuel ctx (.inl token) with
      | .error e => .error e
      | .ok (v, ctx1) => Context.resolve fuel ctx1 (.inr (k v))

/-- Model of `Context.prototype.get`. -/
def Context.get (fuel : Nat) (ctx : Context) (token : Token) :
    Except ResolveError (JSValue × Context) :=
  Context.resolve fuel ctx (.inl token)

/-- Resolution never touches the exposed signal: the context returned by a
successful `get` (or factory-body run) carries the same signal as the input
context. -/
theorem Context.resolve_signal (fuel : Nat) :
    ∀ (ctx : Context) (q : Token ⊕ FactoryBody) (v : JSValue)
      (ctx2 : Context),
      Context.resolve fuel ctx q = .ok (v, ctx2) → ctx2.signal = ctx.signal := by
  induction fuel with
  | zero =>
    intro ctx q v ctx2 h
    simp [Context.resolve] at h
  | succ fuel ih =>
    intro ctx q v ctx2 h
    rcases q with token | body
    · simp only [Context.resolve] at h
      cases hc : mapGet ctx._cache token.name with
      | some v0 =>
        rw [hc] at h
        cases h
        rfl
      | none =>
        rw [hc] at h
        by_cases hr : token.name ∈ ctx._resolving
        · simp [hr] at h
        · rw [if_neg hr] at h
          cases hp : ctx._provider.get token with
          | error e => rw [hp] at h; cases h
          | ok factory =>
            rw [hp] at h
            cases factory with
            | value v0 =>
              simp only at h
              cases h
              rfl
            | fn body =>
              simp only at h
              cases hb :
                  Context.resolve fuel
                    { ctx with _resolving := token.name :: ctx._resolving }
                    (.inr body) with
              | error e => rw [hb] at h; cases h
              | ok r =>
                obtain ⟨v1, ctxB⟩ := r
                rw [hb] at h
                simp only at h
                cases h
                simpa using ih _ _ _ _ hb
    · cases body with
      | ret v0 =>
        simp only [Context.resolve] at h
        cases h
        rfl
      | get token k =>
        simp only [Context.resolve] at h
        cases hg : Context.resolve fuel ctx (.inl token) with
        | error e => rw [hg] at h; cases h
        | ok r =>
          obtain ⟨v1, ctx1⟩ := r
          rw [hg] at h
          simp only at h
          exact (ih _ _ _ _ h).trans (ih _ _ _ _ hg)

/-- C5: resolving a token whose factory resolves that very token — directly
via `ctx.get`, or through a two-factory cycle — fails with the fatal
circular-dependency error naming the revisited token, and does so at every
sufficient fuel: resolution terminates instead of looping or overflowing. -/
theorem Context.get_circular_detected :
    (∀ (fuel : Nat) (p : Provider) (s : Option AbortSignal) (a a0 : Token)
        (k : JSValue → FactoryBody),
      a0.name = a.name →
      mapGet p._factories a.name = some (.fn (.get a0 k)) →
      Context.get (fuel + 3) (Context.make p s) a =
        .error (.circular a.name)) ∧
    (∀ (fuel : Nat) (p : Provider) (s : Option AbortSignal) (a b : Token)
        (ka kb : JSValue → FactoryBody),
      a.name ≠ b.name →
      mapGet p._factories a.name = some (.fn (.get b ka)) →
      mapGet p._factories b.name = some (.fn (.get a kb)) →
      Context.get (fuel + 5) (Context.make p s) a =
        .error (.circular a.name)) := by
  constructor
  · intro fuel p s a a0 k hname hfac
    simp [Context.get, Context.resolve, Context.make, Provider.get, mapGet,
      hname, hfac]
  · intro fuel p s a b ka kb hne hfa hfb
    simp [Context.get, Context.resolve, Context.make, Provider.get, mapGet,
      hfa, hfb, hne, Ne.symm hne]

/-- Witness for C5: a provider whose token `A` factory calls `ctx.get(A)`
fails with the circular error, as does the head of a two-token cycle. -/
theorem Context.get_circular_detected_witness :
    Context.get 3
        (Context.make
          { _factories :=
              [("A",
                TokenFactory.fn
                  (FactoryBody.get { name := "A" }
                    (fun v => FactoryBody.ret v)))] }
          none)
        { name := "A" } =
      .error (.circular "A") ∧
    Context.get 5
        (Context.make
          { _factories :=
              [("A",
                TokenFactory.fn
                  (FactoryBody.get { name := "B" }
                    (fun v => FactoryBody.ret v))),
               ("B",
                TokenFactory.fn
                  (FactoryBody.get { name := "A" }
                    (fun v => FactoryBody.ret v)))] }
          none)
        { name := "A" } =
      .error (.circular "A") := by
  constructor
  · exact
      Context.get_circular_detected.1 0 _ none { name := "A" } { name := "A" }
        (fun v => FactoryBody.ret v) rfl rfl
  · exact
      Context.get_circular_detected.2 0 _ none { name := "A" } { name := "B" }
        (fun v => FactoryBody.ret v) (fun v => FactoryBody.ret v)
        (by decide) rfl rfl

/-- C10: a Context built without a signal exposes the freshly created,
non-aborted `new AbortController().signal`; a Context built with a supplied
signal exposes exactly that signal; and `get` — the only Context operation —
never changes (in particular never aborts) the exposed signal. -/
theorem Context.constructor_signal :
    (∀ p : Provider,
      (Context.make p none).signal = newAbortControllerSignal ∧
      (Context.make p none).signal.aborted = false) ∧
    (∀ (p : Provider) (s : AbortSignal),
      (Context.make p (some s)).signal = s) ∧
    (∀ (fuel : Nat) (ctx : Context) (token : Token) (v : JSValue)
        (ctx2 : Context),
      Context.get fuel ctx token = .ok (v, ctx2) →
      ctx2.signal = ctx.signal) := by
  refine ⟨fun p => ⟨rfl, rfl⟩, fun p s => rfl, ?_⟩
  intro fuel ctx token v ctx2 h
  exact Context.resolve_signal fuel ctx (.inl token) v ctx2 h

/-- Witness for C10 at concrete inputs: the default signal is not aborted,
a supplied aborted signal is exposed unchanged, and a successful concrete
`get` leaves the signal of the resulting context equal to the original. -/
theorem Context.constructor_signal_witness :
    (Context.make { _factories := [] } none).signal.aborted = false ∧
    (Context.make { _factories := [] }
        (some { aborted := true })).signal = { aborted := true } ∧
    ({ signal := newAbortControllerSignal
       _provider := { _factories := [("A", TokenFactory.value (JSValue.str "FOO"))] }
       _cache := [("A", JSValue.str "FOO")]
       _resolving := [] } : Context).signal =
      (Context.make
        { _factories := [("A", TokenFactory.value (JSValue.str "FOO"))] }
        none).signal := by
  refine ⟨(Context.constructor_signal.1 { _factories := [] }).2,
    Context.constructor_signal.2.1 { _factories := [] } { aborted := true },
    ?_⟩
  exact
    Context.constructor_signal.2.2 1
      (Context.make
        { _factories := [("A", TokenFactory.value (JSValue.str "FOO"))] }
        none)
      { name := "A" } (JSValue.str "FOO") _ rfl

/-- Model of a constructed error instance (src/unnamed/part_016): its `name`
property, the `message` and `cause` installed by `super(message, { cause })`,
and the payload properties installed by `Object.assign(this, rest)`. -/
structure ErrInstance where
  name : JSValue
  message : Option JSValue
  cause : Option JSValue
  payload : List (String × JSValue)
deriving DecidableEq, Repr

/-- One step of `Object.assign(this, rest)`. The instance's `name` class
field was already initialised when `super` returned, so assigning a `"name"`
key overwrites that property; any other key becomes a payload property. -/
def assignProp (inst : ErrInstance) (kv : String × JSValue) : ErrInstance :=
  if kv.1 = "name" then { inst with name := kv.2 }
  else { inst with payload := mapSet inst.payload kv.1 kv.2 }

/-- Model of the class produced by `TypedError(name)` applied to a
constructor payload object: `message` and `cause` are destructured out of
the shape into the underlying `Error`, the `name` class field initialises to
the class name, then `Object.assign(this, rest)` installs every remaining
field of the shape in order. -/
def TypedError (name : String) (shape : List (String × JSValue)) :
    ErrInstance :=
  let message := mapGet shape "message"
  let cause := mapGet shape "cause"
  let rest := shape.filter (fun kv => kv.1 != "message" && kv.1 != "cause")
  List.foldl assignProp
    { name := JSValue.str name
      message := message
      cause := cause
      payload := [] }
    rest

theorem foldl_assignProp_no_name (l : List (String × JSValue)) :
    ∀ inst : ErrInstance, "name" ∉ l.map Prod.fst →
      List.foldl assignProp inst l =
        { inst with
            payload := List.foldl (fun m kv => mapSet m kv.1 kv.2)
              inst.payload l } := by
  induction l with
  | nil => intro inst _; rfl
  | cons kv rest ih =>
    intro inst hmem
    obtain ⟨k, v⟩ := kv
    simp only [List.map_cons, List.mem_cons] at hmem
    push_neg at hmem
    have hk : ¬k = "name" := fun h => hmem.1 h.symm
    simp only [List.foldl_cons, assignProp, hk, if_false]
    exact ih _ hmem.2

theorem mapGet_foldl_mapSet_notMem (l : List (String × JSValue)) :
    ∀ (m : List (String × JSValue)) (k : String), k ∉ l.map Prod.fst →
      mapGet (List.foldl (fun m kv => mapSet m kv.1 kv.2) m l) k =
        mapGet m k := by
  induction l with
  | nil => intro m k _; rfl
  | cons kv rest ih =>
    intro m k hmem
    simp only [List.map_cons, List.mem_cons] at hmem
    push_neg at hmem
    simp only [List.foldl_cons]
    rw [ih _ _ hmem.2, mapGet_mapSet, if_neg hmem.1]

theorem mapGet_foldl_mapSet_mem (l : List (String × JSValue)) :
    ∀ (m : List (String × JSValue)) (k : String) (v : JSValue),
      (l.map Prod.fst).Nodup → (k, v) ∈ l →
      mapGet (List.foldl (fun m kv => mapSet m kv.1 kv.2) m l) k = some v := by
  induction l with
  | nil => intro m k v _ hmem; cases hmem
  | cons kv rest ih =>
    intro m k v hnodup hmem
    simp only [List.map_cons, List.nodup_cons] at hnodup
    rcases List.mem_cons.mp hmem with heq | htail
    · obtain ⟨k0, v0⟩ := kv
      cases heq
      simp only [List.foldl_cons]
      rw [mapGet_foldl_mapSet_notMem rest _ _ hnodup.1, mapGet_mapSet, if_pos rfl]
    · simp only [List.foldl_cons]
      exact ih _ _ _ hnodup.2 htail

/-- C6 counterexample: a constructor payload containing a `name` field
overwrites the class name at runtime, because `Object.assign(this, rest)`
runs after the `name` class field initialiser; the instance constructed by
the class named "NotFound" from `{ name: "Evil" }` has name "Evil". -/
theorem TypedError_name_overridden :
    (TypedError "NotFound" [("name", JSValue.str "Evil")]).name =
        JSValue.str "Evil" ∧
      (TypedError "NotFound" [("name", JSValue.str "Evil")]).name ≠
        JSValue.str "NotFound" := by
  constructor
  · rfl
  · decide

/-- C6 (amended): for every declared error name and every constructor
payload whose fields do not include a `name` key, the constructed instance
has the class's fixed name, its message and cause are the shape's `message`
and `cause` fields, and every remaining field of the shape is carried as a
payload property on the instance. -/
theorem TypedError_construct (N : String) (shape : List (String × JSValue))
    (hname : "name" ∉ shape.map Prod.fst)
    (hnodup : (shape.map Prod.fst).Nodup) :
    (TypedError N shape).name = JSValue.str N ∧
    (TypedError N shape).message = mapGet shape "message" ∧
    (TypedError N shape).cause = mapGet shape "cause" ∧
    (∀ k v, (k, v) ∈ shape → k ≠ "message" → k ≠ "cause" →
      mapGet (TypedError N shape).payload k = some v) := by
  have hsub :
      List.Sublist
        ((shape.filter (fun kv => kv.1 != "message" && kv.1 != "cause")).map
          Prod.fst)
        (shape.map Prod.fst) :=
    (List.filter_sublist shape).map Prod.fst
  have hname2 :
      "name" ∉
        (shape.filter (fun kv => kv.1 != "message" && kv.1 != "cause")).map
          Prod.fst :=
    fun h => hname (hsub.subset h)
  have hnodup2 :
      ((shape.filter (fun kv => kv.1 != "message" && kv.1 != "cause")).map
          Prod.fst).Nodup :=
    hnodup.sublist hsub
  have hrw : ∀ inst : ErrInstance,
      List.foldl assignProp inst
          (shape.filter (fun kv => kv.1 != "message" && kv.1 != "cause")) =
        { inst with
            payload := List.foldl (fun m kv => mapSet m kv.1 kv.2)
              inst.payload
              (shape.filter (fun kv => kv.1 != "message" && kv.1 != "cause")) } :=
    fun inst => foldl_assignProp_no_name _ inst hname2
  refine ⟨?_, ?_, ?_, ?_⟩
  · simp [TypedError, hrw]
  · simp [TypedError, hrw]
  · simp [TypedError, hrw]
  · intro k v hmem hk1 hk2
    have hmemf :
        (k, v) ∈ shape.filter (fun kv => kv.1 != "message" && kv.1 != "cause") := by
      simp [List.mem_filter, hmem, hk1, hk2]
    simp only [TypedError, hrw]
    exact mapGet_foldl_mapSet_mem _ _ _ _ hnodup2 hmemf

/-- Witness for C6 at a concrete payload: the class named "NotFound"
constructed from `{ message: "missing", resource: "user" }` yields an
instance named "NotFound" whose message is "missing", whose cause is absent
and whose payload carries `resource: "user"`. -/
theorem TypedError_construct_witness :
    (TypedError "NotFound"
        [("message", JSValue.str "missing"),
         ("resource", JSValue.str "user")]).name = JSValue.str "NotFound" ∧
    (TypedError "NotFound"
        [("message", JSValue.str "missing"),
         ("resource", JSValue.str "user")]).message =
      some (JSValue.str "missing") ∧
    (TypedError "NotFound"
        [("message", JSValue.str "missing"),
         ("resource", JSValue.str "user")]).cause = none ∧
    mapGet
        (TypedError "NotFound"
          [("message", JSValue.str "missing"),
           ("resource", JSValue.str "user")]).payload "resource" =
      some (JSValue.str "user") := by
  have h :=
    TypedError_construct "NotFound"
      [("message", JSValue.str "missing"), ("resource", JSValue.str "user")]
      (by decide) (by decide)
  refine ⟨h.1, ?_, ?_, ?_⟩
  · rw [h.2.1]; rfl
  · rw [h.2.2.1]; rfl
  · exact
      h.2.2.2 "resource" (JSValue.str "user") (by decide) (by decide)
        (by decide)

/-- Tracked error value flowing through the Error channel: a tagged error
with its discriminating `name` and a payload. -/
structure TError where
  name : String
  payload : JSValue
deriving DecidableEq, Repr

/-- Outcome of executing a program once: a success value, a tracked failure,
or a defect (an unexpected thrown value, outside the tracked channel). -/
inductive POutcome where
  | success : JSValue → POutcome
  | failure : TError → POutcome
  | defect : JSValue → POutcome
deriving DecidableEq, Repr

/-- Modelled from the spec: the repository only declares the `Program`
combinators — `Shell.try`/`Shell.fail` (src/unnamed/part_004),
`Program.then`/`Program.catch` (src/unnamed/part_013) — and every body is a
`throw new Error("... not implemented")` stub, so the deferred computation
is modelled from spec.md §4.4 and §7. `thunk` is an effectful leaf whose
outcome may depend on the global invocation count (so that per-attempt
behaviour such as "always fails" is expressible); `thenP` models
`Program.then`, `catchAll` the blanket `Program.catch(fn)` overload and
`catchName` the `Program.catch(name, fn)` overload. -/
inductive Program where
  | pure : JSValue → Program
  | fail : TError → Program
  | thunk : (Nat → POutcome) → Program
  | thenP : Program → (JSValue → Program) → Program
  | catchAll : Program → (TError → Program) → Program
  | catchName : Program → String → (TError → Program) → Program

/-- Modelled from the spec: one deterministic execution of a program,
threading the count of leaf (`thunk`) invocations. `thenP` runs its
callback only on success; `catchAll` handles every tracked failure;
`catchName` handles only failures whose error name matches, returning a
non-matching failure unchanged; defects bypass both catch forms (spec.md
§7: defects are never caught by `catch`). -/
def interp : Program → Nat → POutcome × Nat
  | .pure v, c => (.success v, c)
  | .fail e, c => (.failure e, c)
  | .thunk f, c => (f c, c + 1)
  | .thenP p f, c =>
    match interp p c with
    | (.success v, c1) => interp (f v) c1
    | r => r
  | .catchAll p h, c =>
    match interp p c with
    | (.failure e, c1) => interp (h e) c1
    | r => r
  | .catchName p n h, c =>
    match interp p c with
    | (.failure e, c1) =>
      if e.name = n then interp (h e) c1 else (.failure e, c1)
    | r => r

/-- Modelled from the spec: `Program.retry` (declared in
src/unnamed/part_013 with type `Program<T, E, R>`, body unimplemented) for a
`{ times }` policy, per spec.md §4.4/§8: one initial attempt plus `times`
retries of the same program, stopping early when an attempt does not fail;
the final result is the last attempt's result. `delay`/`while`/abort are
not exercised by the claims and are omitted. -/
def retryRun (p : Program) : Nat → Nat → POutcome × Nat
  | 0, c => interp p c
  | t + 1, c =>
    match interp p c with
    | (.failure _, c1) => retryRun p t c1
    | r => r

/-- Model of `Result<T, E>` (packages/thunx/src/result.ts): `Success{value}`
or `Failure{error}`, mirroring the `success`/`failure` constructors. -/
inductive ResultV where
  | success : JSValue → ResultV
  | failure : TError → ResultV
deriving DecidableEq, Repr

/-- The run mode (`RunMode = "result" | "unwrap"` in src/unnamed/part_010,
the `RunOptions.mode` consumed by `Shell.run`). -/
inductive RunMode where
  | result : RunMode
  | unwrap : RunMode
deriving DecidableEq, Repr

/-- How the promise returned by `run` settles: resolving with a `Result`
(default mode), resolving with the bare value (unwrap mode), or rejecting —
with the tracked error value itself (unwrap mode) or with a defect. -/
inductive RunOutput where
  | resolvedResult : ResultV → RunOutput
  | resolvedValue : JSValue → RunOutput
  | rejectedError : TError → RunOutput
  | rejectedDefect : JSValue → RunOutput
deriving DecidableEq, Repr

/-- Modelled from the spec: `Shell.run` (declared in src/unnamed/part_004
and packages/tryrun/src/shell.ts, bodies unimplemented), per spec.md §4.4
and §7: the default mode resolves with `Success`/`Failure` and never rejects
for a tracked failure; `{ mode: "unwrap" }` resolves with the bare value and
rejects with the tracked error value itself on failure; defects reject in
both modes. -/
def run (p : Program) (mode : RunMode) : RunOutput :=
  match (interp p 0).1 with
  | .success v =>
    match mode with
    | .result => .resolvedResult (.success v)
    | .unwrap => .resolvedValue v
  | .failure e =>
    match mode with
    | .result => .resolvedResult (.failure e)
    | .unwrap => .rejectedError e
  | .defect d => .rejectedDefect d

/-- Outcome with which a member of `all` settles, together with its
completion time. -/
inductive MemberOutcome where
  | success : JSValue → MemberOutcome
  | failure : TError → MemberOutcome
deriving DecidableEq, Repr

/-- The earliest-completing failing member (its completion time and error);
ties in completion time keep the earlier member in input order. -/
def firstFailure : List (Nat × MemberOutcome) → Option (Nat × TError)
  | [] => none
  | (t, .failure e) :: rest =>
    match firstFailure rest with
    | some (t1, e1) => if t1 < t then some (t1, e1) else some (t, e)
    | none => some (t, e)
  | (_, .success _) :: rest => firstFailure rest

/-- Completion time of the slowest member. -/
def maxTime (members : List (Nat × MemberOutcome)) : Nat :=
  members.foldr (fun m acc => max m.1 acc) 0

/-- The success values of the members, in input order. -/
def memberValues (members : List (Nat × MemberOutcome)) : List JSValue :=
  members.filterMap fun m =>
    match m.2 with
    | .success v => some v
    | .failure _ => none

/-- Outcome of the combined `all` computation. -/
inductive AllOutcome where
  | success : List JSValue → AllOutcome
  | failure : TError → AllOutcome
deriving DecidableEq, Repr

/-- Modelled from the spec: `Shell.all` (declared in src/unnamed/part_004,
body unimplemented), per spec.md §5: every member runs concurrently — each
member is modelled by its completion time and settled outcome — and the
combined computation fails at the first member failure, with that member's
error, without waiting for still-running members; when every member
succeeds it settles once the slowest member has, with the values in input
order. The result pairs the combined settle time with the combined
outcome. -/
def allRun (members : List (Nat × MemberOutcome)) : Nat × AllOutcome :=
  match firstFailure members with
  | some (t, e) => (t, .failure e)
  | none => (maxTime members, .success (memberValues members))

/-- C1: for every runnable program whose execution settles with a tracked
failure `e`, `run` without unwrap resolves to `Failure{error: e}` and never
rejects, while `run` with the unwrap mode rejects with the error value `e`
itself. -/
theorem run_tracked_failure (p : Program) (e : TError)
    (h : (interp p 0).1 = .failure e) :
    run p .result = .resolvedResult (.failure e) ∧
    (∀ e1, run p .result ≠ .rejectedError e1) ∧
    (∀ d, run p .result ≠ .rejectedDefect d) ∧
    run p .unwrap = .rejectedError e := by
  refine ⟨?_, ?_, ?_, ?_⟩ <;> simp [run, h]

/-- Witness for C1: the program failing with the error named "X" resolves to
`Failure` in the default mode and rejects with the error itself in unwrap
mode. -/
theorem run_tracked_failure_witness :
    run (.fail { name := "X", payload := JSValue.undef }) .result =
      .resolvedResult (.failure { name := "X", payload := JSValue.undef }) ∧
    run (.fail { name := "X", payload := JSValue.undef }) .unwrap =
      .rejectedError { name := "X", payload := JSValue.undef } := by
  have h :=
    run_tracked_failure (.fail { name := "X", payload := JSValue.undef })
      { name := "X", payload := JSValue.undef } rfl
  exact ⟨h.1, h.2.2.2⟩

/-- C2: `catch(name, handler)` replaces only failures whose error name
matches with the handler's outcome; a success or defect passes through; a
failing error whose name does not match is returned unchanged, as the same
error value; and every failure of the combined program is either a
non-matching failure of the original program (identity-preserved) or a
failure produced by the handler. -/
theorem catch_by_name_partition (p : Program) (n : String)
    (h : TError → Program) (c : Nat) :
    (∀ v c1, interp p c = (.success v, c1) →
      interp (.catchName p n h) c = (.success v, c1)) ∧
    (∀ e c1, interp p c = (.failure e, c1) → e.name = n →
      interp (.catchName p n h) c = interp (h e) c1) ∧
    (∀ e c1, interp p c = (.failure e, c1) → e.name ≠ n →
      interp (.catchName p n h) c = (.failure e, c1)) ∧
    (∀ d c1, interp p c = (.defect d, c1) →
      interp (.catchName p n h) c = (.defect d, c1)) ∧
    (∀ e c1, interp (.catchName p n h) c = (.failure e, c1) →
      (interp p c = (.failure e, c1) ∧ e.name ≠ n) ∨
      (∃ e0 c0, interp p c = (.failure e0, c0) ∧ e0.name = n ∧
        interp (h e0) c0 = (.failure e, c1))) := by
  have h1 : ∀ v c1, interp p c = (.success v, c1) →
      interp (.catchName p n h) c = (.success v, c1) := by
    intro v c1 hp; simp [interp, hp]
  have h2 : ∀ e c1, interp p c = (.failure e, c1) → e.name = n →
      interp (.catchName p n h) c = interp (h e) c1 := by
    intro e c1 hp hn; simp [interp, hp, hn]
  have h3 : ∀ e c1, interp p c = (.failure e, c1) → e.name ≠ n →
      interp (.catchName p n h) c = (.failure e, c1) := by
    intro e c1 hp hn; simp [interp, hp, hn]
  have h4 : ∀ d c1, interp p c = (.defect d, c1) →
      interp (.catchName p n h) c = (.defect d, c1) := by
    intro d c1 hp; simp [interp, hp]
  refine ⟨h1, h2, h3, h4, ?_⟩
  intro e c1 hres
  rcases hp : interp p c with ⟨o, c0⟩
  cases o with
  | success v =>
    rw [h1 v c0 hp] at hres
    cases hres
  | defect d =>
    rw [h4 d c0 hp] at hres
    cases hres
  | failure e0 =>
    by_cases hn : e0.name = n
    · right
      exact ⟨e0, c0, rfl, hn, (h2 e0 c0 hp hn).symm.trans hres⟩
    · left
      rw [h3 e0 c0 hp hn] at hres
      cases hres
      exact ⟨rfl, hn⟩

/-- Witness for C2 at concrete programs: a failure named "NotFound" is
passed through unchanged by `catch("Timeout", handler)` and replaced by the
handler outcome under `catch("NotFound", handler)`. -/
theorem catch_by_name_partition_witness :
    interp
        (.catchName (.fail { name := "NotFound", payload := JSValue.undef })
          "Timeout" (fun _ => .pure (JSValue.str "recovered"))) 0 =
      (.failure { name := "NotFound", payload := JSValue.undef }, 0) ∧
    interp
        (.catchName (.fail { name := "NotFound", payload := JSValue.undef })
          "NotFound" (fun _ => .pure (JSValue.str "recovered"))) 0 =
      (.success (JSValue.str "recovered"), 0) := by
  constructor
  · exact
      (catch_by_name_partition
          (.fail { name := "NotFound", payload := JSValue.undef }) "Timeout"
          (fun _ => .pure (JSValue.str "recovered")) 0).2.2.1
        { name := "NotFound", payload := JSValue.undef } 0 rfl (by decide)
  · exact
      ((catch_by_name_partition
          (.fail { name := "NotFound", payload := JSValue.undef }) "NotFound"
          (fun _ => .pure (JSValue.str "recovered")) 0).2.1
        { name := "NotFound", payload := JSValue.undef } 0 rfl rfl).trans rfl

theorem retryRun_thunk_allfail (f : Nat → POutcome) (e : TError)
    (hf : ∀ k, f k = .failure e) :
    ∀ times c, retryRun (.thunk f) times c = (.failure e, c + times + 1) := by
  intro times
  induction times with
  | zero => intro c; simp [retryRun, interp, hf c]
  | succ t ih =>
    intro c
    rw [show retryRun (.thunk f) (t + 1) c = retryRun (.thunk f) t (c + 1) by
      simp [retryRun, interp, hf c]]
    rw [ih (c + 1)]
    congr 1
    omega

theorem retryRun_is_attempt (p : Program) :
    ∀ times c, ∃ c1, retryRun p times c = interp p c1 := by
  intro times
  induction times with
  | zero => intro c; exact ⟨c, rfl⟩
  | succ t ih =>
    intro c
    rcases hp : interp p c with ⟨o, c1⟩
    cases o with
    | failure e =>
      obtain ⟨c2, hc2⟩ := ih c1
      exact ⟨c2, by rw [← hc2]; simp [retryRun, hp]⟩
    | success v => exact ⟨c, by simp [retryRun, hp]⟩
    | defect d => exact ⟨c, by simp [retryRun, hp]⟩

/-- C3: a computation that fails with error `e` on every invocation, wrapped
in `retry({times})`, invokes the underlying computation exactly `times + 1`
times in total (for `times = 3`: 4 invocations) and its final result is the
failure `e`; and for every program the result of `retry` is exactly the
result of one execution of the underlying program, so retrying introduces no
new error, value or requirement (matching the declared type
`retry(policy): Program<T, E, R>` of src/unnamed/part_013). -/
theorem retry_permanent_failure :
    (∀ (f : Nat → POutcome) (e : TError) (times c : Nat),
      (∀ k, f k = .failure e) →
      retryRun (.thunk f) times c = (.failure e, c + times + 1)) ∧
    (∀ (p : Program) (times c : Nat), ∃ c1,
      retryRun p times c = interp p c1) :=
  ⟨fun f e times c hf => retryRun_thunk_allfail f e hf times c,
   fun p times c => retryRun_is_attempt p times c⟩

/-- Witness for C3: a thunk that always fails with the error named "X",
retried 3 times starting from invocation count 0, ends with `Failure{X}`
after exactly 4 invocations. -/
theorem retry_permanent_failure_witness :
    retryRun (.thunk fun _ => .failure { name := "X", payload := JSValue.undef })
        3 0 =
      (.failure { name := "X", payload := JSValue.undef }, 4) := by
  simpa using
    retry_permanent_failure.1
      (fun _ => .failure { name := "X", payload := JSValue.undef })
      { name := "X", payload := JSValue.undef } 3 0 (fun _ => rfl)

theorem firstFailure_none_no_failure (members : List (Nat × MemberOutcome)) :
    firstFailure members = none →
      ∀ t e, (t, MemberOutcome.failure e) ∉ members := by
  induction members with
  | nil => intro _ t e hmem; cases hmem
  | cons m rest ih =>
    intro hnone t e hmem
    obtain ⟨t0, o0⟩ := m
    cases o0 with
    | failure e0 =>
      simp only [firstFailure] at hnone
      rcases hf : firstFailure rest with _ | ⟨t1, e1⟩ <;> simp [hf] at hnone
      split at hnone <;> cases hnone
    | success v0 =>
      simp only [firstFailure] at hnone
      rcases List.mem_cons.mp hmem with heq | htail
      · cases heq
      · exact ih hnone t e htail

theorem firstFailure_spec (members : List (Nat × MemberOutcome)) :
    ∀ t e, firstFailure members = some (t, e) →
      (t, MemberOutcome.failure e) ∈ members ∧
      (∀ t1 e1, (t1, MemberOutcome.failure e1) ∈ members → t ≤ t1) := by
  induction members with
  | nil => intro t e h; cases h
  | cons m rest ih =>
    intro t e h
    obtain ⟨t0, o0⟩ := m
    cases o0 with
    | success v0 =>
      simp only [firstFailure] at h
      obtain ⟨hmem, hmin⟩ := ih t e h
      refine ⟨List.mem_cons_of_mem _ hmem, ?_⟩
      intro t1 e1 h1
      rcases List.mem_cons.mp h1 with heq | htail
      · cases heq
      · exact hmin t1 e1 htail
    | failure e0 =>
      simp only [firstFailure] at h
      split at h
      · rename_i t1 e1 hf
        obtain ⟨hmem1, hmin1⟩ := ih t1 e1 hf
        split at h
        · rename_i hlt
          cases h
          refine ⟨List.mem_cons_of_mem _ hmem1, ?_⟩
          intro t2 e2 h2
          rcases List.mem_cons.mp h2 with heq | htail
          · cases heq; exact Nat.le_of_lt hlt
          · exact hmin1 t2 e2 htail
        · rename_i hlt
          cases h
          refine ⟨List.mem_cons_self _ _, ?_⟩
          intro t2 e2 h2
          rcases List.mem_cons.mp h2 with heq | htail
          · cases heq; exact Nat.le_refl _
          · exact Nat.le_trans (Nat.le_of_not_lt hlt) (hmin1 t2 e2 htail)
      · rename_i hf
        cases h
        refine ⟨List.mem_cons_self _ _, ?_⟩
        intro t2 e2 h2
        rcases List.mem_cons.mp h2 with heq | htail
        · cases heq; exact Nat.le_refl _
        · exact absurd htail (firstFailure_none_no_failure rest hf t2 e2)

theorem all_success_firstFailure_none (members : List (Nat × MemberOutcome))
    (hall : ∀ m ∈ members, ∃ v, m.2 = MemberOutcome.success v) :
    firstFailure members = none := by
  induction members with
  | nil => rfl
  | cons m rest ih =>
    obtain ⟨t0, o0⟩ := m
    obtain ⟨v, hv⟩ := hall (t0, o0) (List.mem_cons_self _ _)
    cases hv
    simp only [firstFailure]
    exact ih fun m hm => hall m (List.mem_cons_of_mem _ hm)

theorem all_success_values (members : List (Nat × MemberOutcome))
    (hall : ∀ m ∈ members, ∃ v, m.2 = MemberOutcome.success v) :
    members.map Prod.snd =
      (memberValues members).map MemberOutcome.success := by
  induction members with
  | nil => rfl
  | cons m rest ih =>
    obtain ⟨t0, o0⟩ := m
    obtain ⟨v, hv⟩ := hall (t0, o0) (List.mem_cons_self _ _)
    cases hv
    simp only [memberValues, List.filterMap_cons, List.map_cons]
    exact congrArg _ (ih fun m hm => hall m (List.mem_cons_of_mem _ hm))

/-- C4: when some member fails, the combined `all` computation fails with
the error of the earliest-failing member, settling at that member's
completion time — not waiting for any other member (its settle time is a
lower bound of every failing member's time); when every member succeeds,
the combined computation succeeds with the member values in input order
(the i-th member's outcome is the success of the i-th result value), not in
completion order. -/
theorem all_fail_fast_ordered :
    (∀ members : List (Nat × MemberOutcome),
      (∃ m ∈ members, ∃ e, m.2 = MemberOutcome.failure e) →
      ∃ t e,
        allRun members = (t, .failure e) ∧
        (t, MemberOutcome.failure e) ∈ members ∧
        (∀ t1 e1, (t1, MemberOutcome.failure e1) ∈ members → t ≤ t1)) ∧
    (∀ members : List (Nat × MemberOutcome),
      (∀ m ∈ members, ∃ v, m.2 = MemberOutcome.success v) →
      allRun members = (maxTime members, .success (memberValues members)) ∧
      members.map Prod.snd =
        (memberValues members).map MemberOutcome.success) := by
  constructor
  · intro members hex
    rcases hf : firstFailure members with _ | ⟨t, e⟩
    · obtain ⟨⟨t0, o0⟩, hmem, e0, he0⟩ := hex
      cases he0
      exact absurd hmem (firstFailure_none_no_failure members hf t0 e0)
    · obtain ⟨hmem, hmin⟩ := firstFailure_spec members t e hf
      exact ⟨t, e, by simp [allRun, hf], hmem, hmin⟩
  · intro members hall
    refine ⟨?_, all_success_values members hall⟩
    simp [allRun, all_success_firstFailure_none members hall]

/-- Witness for C4 on the concrete scenario of spec.md §8: P1 succeeds with
1 after 10ms, P2 fails with ErrA after 5ms, P3 succeeds with 3 after 1ms —
`all` fails with ErrA at time 5; and the all-success variant succeeds at
time 10 with the values in input order. -/
theorem all_fail_fast_ordered_witness :
    allRun
        [(10, .success (JSValue.num 1)),
         (5, .failure { name := "ErrA", payload := JSValue.undef }),
         (1, .success (JSValue.num 3))] =
      (5, .failure { name := "ErrA", payload := JSValue.undef }) ∧
    allRun
        [(10, .success (JSValue.num 1)),
         (5, .success (JSValue.num 2)),
         (1, .success (JSValue.num 3))] =
      (10, .success [JSValue.num 1, JSValue.num 2, JSValue.num 3]) := by
  constructor
  · obtain ⟨t, e, hrun, hmem, hmin⟩ :=
      all_fail_fast_ordered.1
        [(10, .success (JSValue.num 1)),
         (5, .failure { name := "ErrA", payload := JSValue.undef }),
         (1, .success (JSValue.num 3))]
        ⟨(5, .failure { name := "ErrA", payload := JSValue.undef }),
          by decide, { name := "ErrA", payload := JSValue.undef }, rfl⟩
    rcases List.mem_cons.mp hmem with h1 | hmem1
    · cases h1
    · rcases List.mem_cons.mp hmem1 with h2 | hmem2
      · cases h2
        exact hrun
      · rcases List.mem_cons.mp hmem2 with h3 | hmem3
        · cases h3
        · cases hmem3
  · have h :=
      (all_fail_fast_ordered.2
        [(10, .success (JSValue.num 1)),
         (5, .success (JSValue.num 2)),
         (1, .success (JSValue.num 3))]
        (by
          intro m hm
          rcases List.mem_cons.mp hm with h1 | hm1
          · exact ⟨JSValue.num 1, by rw [h1]⟩
          · rcases List.mem_cons.mp hm1 with h2 | hm2
            · exact ⟨JSValue.num 2, by rw [h2]⟩
            · rcases List.mem_cons.mp hm2 with h3 | hm3
              · exact ⟨JSValue.num 3, by rw [h3]⟩
              · cases hm3)).1
    exact h.trans (by decide)

end Tryz
